import Mathlib

/-!
Verification of the ride-share dispatch simulation.

Shallow embedding of the Python sources (`location.py`, `rider.py`,
`driver.py`, `container.py`, `dispatcher.py`, `event.py`).  Pure methods
become Lean functions; mutation of the shared `Rider`/`Driver` objects and
of the dispatcher's pools becomes explicit state passing over a `World`
record that maps identifiers to entity records.  Python exceptions become
an `Except` result with an error inductive.  Python's `round` on the exact
rational `distance / speed` is embedded as round half to even on naturals.
-/

/-- Python exception classes that the embedded code can surface, plus the
two error classes named by the documentation (`EmptyQueueError`,
`FormatError`), which no source file defines; they are distinct
constructors so that "fails with X" is a statable proposition. -/
inductive PyError where
  | indexError
  | valueError
  | emptyQueueError
  | formatError
deriving DecidableEq, Repr

/-- Location record from `location.py`: a two-dimensional integer
coordinate, structural equality. -/
structure Location where
  row : Int
  col : Int
deriving DecidableEq, Repr

/-- Function `manhattan_distance` from `location.py`: sum of the absolute
coordinate differences (a nonnegative integer, embedded as `Nat`). -/
def manhattan_distance (origin destination : Location) : Nat :=
  (destination.row - origin.row).natAbs + (destination.col - origin.col).natAbs

/-- Python `round(num / den)` for nonnegative integer `num` and positive
integer `den`: round half to even (banker's rounding) of the exact
rational `num / den`.  The source divides machine floats; this embedding
uses the exact rational value. -/
def roundDiv (num den : Nat) : Nat :=
  let q := num / den
  let r := num % den
  if 2 * r < den then q
  else if den < 2 * r then q + 1
  else if q % 2 = 0 then q else q + 1

/-- Character test for the whitespace that Python's `int(str)` strips from
both ends of its argument (ASCII whitespace). -/
def isPySpace (c : Char) : Bool :=
  c = ' ' || c = '\t' || c = '\n' || c = '\x0d' || c = '\x0b' || c = '\x0c'

/-- Helper that strips leading and trailing Python whitespace from a
character list. -/
def stripPySpace (cs : List Char) : List Char :=
  ((cs.dropWhile isPySpace).reverse.dropWhile isPySpace).reverse

/-- Digit tail of a Python integer literal: after a first digit has been
read into `acc`, consume further digits, allowing a single underscore
between two digits (Python 3 literal grammar). -/
def pyDigitsGo : List Char → Nat → Option Nat
  | [], acc => some acc
  | '_' :: rest, acc =>
    match rest with
    | [] => none
    | d :: rest' =>
      if d.isDigit then pyDigitsGo rest' (10 * acc + (d.toNat - 48)) else none
  | c :: rest, acc =>
    if c.isDigit then pyDigitsGo rest (10 * acc + (c.toNat - 48)) else none

/-- Unsigned decimal digit run of a Python integer literal: at least one
digit, underscores only between digits. -/
def pyDigits : List Char → Option Nat
  | [] => none
  | c :: rest => if c.isDigit then pyDigitsGo rest (c.toNat - 48) else none

/-- Python `int(str)` on ASCII text: strip surrounding whitespace, allow
one optional sign directly before the digits, then a digit run; `none`
models the `ValueError` that `int` raises on anything else. -/
def pyInt (cs : List Char) : Option Int :=
  match stripPySpace cs with
  | '-' :: rest => (pyDigits rest).map (fun n => -(n : Int))
  | '+' :: rest => (pyDigits rest).map (fun n => (n : Int))
  | rest => (pyDigits rest).map (fun n => (n : Int))

/-- Python `str.split(",")` on a character list: splits at every comma and
keeps empty fields, so the result is always nonempty. -/
def splitOnComma : List Char → List (List Char)
  | [] => [[]]
  | ',' :: rest => [] :: splitOnComma rest
  | c :: rest =>
    match splitOnComma rest with
    | [] => [[c]]
    | f :: fs => (c :: f) :: fs

/-- Function `deserialize_location` from `location.py`:
`split_string = location_str.split(",")` followed by
`Location(int(split_string[0]), int(split_string[1]))`.  Evaluation order
of the Python expression is kept: `int` on field 0 first (`ValueError` on
parse failure), then the index `[1]` (`IndexError` when there is no
comma), then `int` on field 1. -/
def deserialize_location (location_str : String) : Except PyError Location :=
  match splitOnComma location_str.data with
  | [] => .error .indexError
  | p0 :: rest =>
    match pyInt p0 with
    | none => .error .valueError
    | some a =>
      match rest with
      | [] => .error .indexError
      | p1 :: _ =>
        match pyInt p1 with
        | none => .error .valueError
        | some b => .ok ⟨a, b⟩

/-- Status constants from `rider.py` (`WAITING`, `CANCELLED`,
`SATISFIED`). -/
inductive RiderStatus where
  | waiting
  | cancelled
  | satisfied
deriving DecidableEq, Repr

/-- Rider record from `rider.py`; `status` starts as `WAITING` in
`__init__` and is mutated by the dispatcher and the events. -/
structure Rider where
  identifier : String
  patience : Nat
  origin : Location
  destination : Location
  status : RiderStatus
deriving DecidableEq, Repr

/-- Constructor `Rider.__init__`: status starts as `WAITING`. -/
def mkRider (identifier : String) (patience : Nat)
    (origin destination : Location) : Rider :=
  ⟨identifier, patience, origin, destination, .waiting⟩

/-- Driver record from `driver.py`.  `destination` is `None` (`none`)
while the driver is idle. -/
structure Driver where
  id : String
  location : Location
  speed : Nat
  is_idle : Bool
  destination : Option Location
deriving DecidableEq, Repr

/-- Constructor `Driver.__init__`: idle, no destination. -/
def mkDriver (identifier : String) (location : Location) (speed : Nat) :
    Driver :=
  ⟨identifier, location, speed, true, none⟩

/-- Method `Driver.__eq__`: two drivers compare equal iff id, location and
speed all agree (idleness and destination are not compared). -/
def driverPyEq (a b : Driver) : Bool :=
  a.id = b.id && a.location = b.location && a.speed = b.speed

/-- Method `Driver.get_travel_time`: `round(manhattan_distance(location,
destination) / speed)`. -/
def Driver.get_travel_time (d : Driver) (destination : Location) : Nat :=
  roundDiv (manhattan_distance d.location destination) d.speed

/-- Method `Driver.start_drive`: become busy, set the destination, return
the travel time there. -/
def Driver.start_drive (d : Driver) (location : Location) : Driver × Nat :=
  ({ d with is_idle := false, destination := some location },
   d.get_travel_time location)

/-- Method `Driver.end_drive`: arrive, i.e. move to the destination, clear
it then become idle.  The source documents the precondition
`self.destination is not None`; the `none` branch is unreachable under it
and keeps the location unchanged. -/
def Driver.end_drive (d : Driver) : Driver :=
  match d.destination with
  | some dest => { d with location := dest, destination := none, is_idle := true }
  | none => { d with destination := none, is_idle := true }

/-- Method `Driver.start_ride`: become busy, destination becomes the
rider's destination, return the travel time there. -/
def Driver.start_ride (d : Driver) (rider : Rider) : Driver × Nat :=
  ({ d with is_idle := false, destination := some rider.destination },
   d.get_travel_time rider.destination)

/-- Method `Driver.end_ride`: same state change as `end_drive` (the source
sets `is_idle` first, then swaps location and destination). -/
def Driver.end_ride (d : Driver) : Driver :=
  match d.destination with
  | some dest => { d with location := dest, destination := none, is_idle := true }
  | none => { d with destination := none, is_idle := true }

/-- Backing store of `PriorityQueue` from `container.py`: `_items` is kept
sorted, highest priority (least element) first. -/
structure PriorityQueue (α : Type) where
  items : List α
deriving DecidableEq, Repr

/-- Loop body of `PriorityQueue.add`: fold over the old items carrying the
`inserted` flag and the `new_items` list being built. -/
def addStep (lt : α → α → Bool) (item : α) (acc : Bool × List α) (x : α) :
    Bool × List α :=
  if !acc.1 && lt item x then (true, acc.2 ++ [item, x])
  else (acc.1, acc.2 ++ [x])

/-- Method `PriorityQueue.add` from `container.py`, translated loop for
loop: scan the sorted items, insert the new item immediately before the
first existing item it is strictly less than (`item < self._items[i]`,
duck-typed `__lt__` passed as `lt`); if it is never less, append it at the
end. -/
def PriorityQueue.add (lt : α → α → Bool) (q : PriorityQueue α) (item : α) :
    PriorityQueue α :=
  let res := q.items.foldl (addStep lt item) (false, [])
  if !res.1 then ⟨res.2 ++ [item]⟩ else ⟨res.2⟩

/-- Method `PriorityQueue.remove` from `container.py`:
`return self._items.pop(0)`.  On an empty backing list Python's
`list.pop` raises `IndexError`. -/
def PriorityQueue.remove (q : PriorityQueue α) :
    Except PyError (α × PriorityQueue α) :=
  match q.items with
  | [] => .error .indexError
  | x :: rest => .ok (x, ⟨rest⟩)

/-- Method `PriorityQueue.is_empty` from `container.py`:
`len(self._items) == 0`. -/
def PriorityQueue.is_empty (q : PriorityQueue α) : Bool :=
  q.items.length == 0

/-- Queue obtained by `add`-ing the elements of `xs` in order into an
initially empty `PriorityQueue`. -/
def pqOfList (lt : α → α → Bool) (xs : List α) : PriorityQueue α :=
  xs.foldl (PriorityQueue.add lt) ⟨[]⟩

/-- Helper spelling out one step of draining: `x :: rest` is exactly what
repeated `PriorityQueue.remove` returns element by element. -/
def drainList : List α → List α
  | [] => []
  | x :: rest => x :: drainList rest

/-- Sequence of elements obtained by calling `remove` repeatedly until the
queue `is_empty` (each `remove` returns the head of the backing list and
the queue of the remaining items). -/
def PriorityQueue.drain (q : PriorityQueue α) : List α :=
  drainList q.items

/-- Comparator a Python `x < y` resolves to when `__lt__` compares the key
`key` with `<`; instantiated with `Prod.fst` for prioritised payloads and
with `Event.timestamp` for the event queue. -/
def ltKey {γ : Type} [LinearOrder γ] (key : α → γ) (a b : α) : Bool :=
  decide (key a < key b)

/-- Actor kinds of the monitor contract (`RIDER`, `DRIVER`). -/
inductive ActorKind where
  | riderKind
  | driverKind
deriving DecidableEq, Repr

/-- Action kinds of the monitor contract (`REQUEST`, `CANCEL`, `PICKUP`,
`DROPOFF`). -/
inductive ActionKind where
  | request
  | cancel
  | pickupAct
  | dropoffAct
deriving DecidableEq, Repr

/-- Modelled from the spec: the monitor collaborator (its module is not
part of the sources) receives `notify(timestamp, actor_kind, action_kind,
actor_id, location)` records; how it stores them is out of scope, so a
notification is just the tuple of arguments. -/
structure Notification where
  time : Nat
  actor : ActorKind
  action : ActionKind
  ident : String
  loc : Location
deriving DecidableEq, Repr

/-- Whole mutable state of one simulation: the arena of `Rider` and
`Driver` objects keyed by identity, the dispatcher's two pools
(`_driver_list` and `_rider_list` from `dispatcher.py`, holding object
references, embedded as keys), and the monitor's received notifications.
Distinct keys model distinct Python objects. -/
structure World where
  riders : String → Rider
  drivers : String → Driver
  driver_list : List String
  rider_list : List String
  log : List Notification

/-- Pointwise update of the rider arena at one key (one object's
mutation). -/
def updRider (m : String → Rider) (k : String) (v : Rider) : String → Rider :=
  fun x => if x = k then v else m x

/-- Pointwise update of the driver arena at one key. -/
def updDriver (m : String → Driver) (k : String) (v : Driver) :
    String → Driver :=
  fun x => if x = k then v else m x

/-- Modelled from the spec: `monitor.notify(...)` appends an activity
record; fire and forget, no effect on the core state. -/
def notify (w : World) (time : Nat) (actor : ActorKind) (action : ActionKind)
    (ident : String) (loc : Location) : World :=
  { w with log := w.log ++ [⟨time, actor, action, ident, loc⟩] }

/-- Sentinel initial value of `curr_min` in
`Dispatcher.request_driver`. -/
def currMinInit : Nat := 10000000000

/-- Body of the loop of `Dispatcher.request_driver`, carrying
`(curr_min, curr_driver)`: an idle driver replaces the current best
exactly when `curr_min > driver_time` (strict, so the first driver
achieving the minimum is kept). -/
def scanStep (w : World) (origin : Location) (acc : Nat × Option String)
    (d : String) : Nat × Option String :=
  let st := w.drivers d
  if st.is_idle then
    let driver_time := st.get_travel_time origin
    if driver_time < acc.1 then (driver_time, some d) else acc
  else acc

/-- Loop of `Dispatcher.request_driver`: fold the step over the driver
pool starting from the sentinel `curr_min` and no driver. -/
def requestScan (w : World) (origin : Location) : Nat × Option String :=
  w.driver_list.foldl (scanStep w origin) (currMinInit, none)

/-- Method `Dispatcher.request_driver` from `dispatcher.py`: scan the
driver pool for the idle driver with least travel time to the rider's
origin; if one was found, drop the rider from the waiting list when
present and return the driver; otherwise append the rider to the waiting
list and return `None`.  Rider membership in `_rider_list` is Python
object identity (no `Rider.__eq__` is defined), i.e. key equality. -/
def Dispatcher.request_driver (w : World) (rider : String) :
    World × Option String :=
  match (requestScan w (w.riders rider).origin).2 with
  | some curr_driver =>
    if rider ∈ w.rider_list then
      ({ w with rider_list := w.rider_list.erase rider }, some curr_driver)
    else (w, some curr_driver)
  | none => ({ w with rider_list := w.rider_list ++ [rider] }, none)

/-- Method `Dispatcher.request_rider` from `dispatcher.py`: register the
driver unless some pooled driver already compares `Driver.__eq__`-equal
to it; then pop the first waiting rider, if any, and have the driver
start driving to that rider's origin. -/
def Dispatcher.request_rider (w : World) (driver : String) :
    World × Option String :=
  let dl :=
    if w.driver_list.any (fun e => driverPyEq (w.drivers e) (w.drivers driver))
    then w.driver_list
    else w.driver_list ++ [driver]
  match w.rider_list with
  | [] => ({ w with driver_list := dl }, none)
  | rider :: rest =>
    let d' := ((w.drivers driver).start_drive (w.riders rider).origin).1
    ({ w with driver_list := dl, rider_list := rest,
              drivers := updDriver w.drivers driver d' },
     some rider)

/-- Method `Dispatcher.cancel_ride` from `dispatcher.py`: remove the rider
from the waiting list when present (Python `list.remove`, first
occurrence), then unconditionally set its status to `CANCELLED`. -/
def Dispatcher.cancel_ride (w : World) (rider : String) : World :=
  let w1 :=
    if rider ∈ w.rider_list
    then { w with rider_list := w.rider_list.erase rider }
    else w
  let r' := { w1.riders rider with status := RiderStatus.cancelled }
  { w1 with riders := updRider w1.riders rider r' }

/-- Event hierarchy of `event.py` as a closed sum; payload object
references are arena keys.  `timestamp` is the common base attribute. -/
inductive Event where
  | riderRequest (timestamp : Nat) (rider : String)
  | driverRequest (timestamp : Nat) (driver : String)
  | cancellation (timestamp : Nat) (rider : String)
  | pickup (timestamp : Nat) (driver : String) (rider : String)
  | dropoff (timestamp : Nat) (driver : String) (rider : String)
deriving DecidableEq, Repr

/-- Attribute `Event.timestamp`, the sole input of the comparison methods
`__lt__` etc. of `event.py`. -/
def Event.timestamp : Event → Nat
  | .riderRequest t _ => t
  | .driverRequest t _ => t
  | .cancellation t _ => t
  | .pickup t _ _ => t
  | .dropoff t _ _ => t

/-- Method `do` of the five event classes in `event.py`, as one dispatch
over the sum: returns the mutated world and the list of follow-up
events. -/
def doEvent (e : Event) (w : World) : World × List Event :=
  match e with
  | .riderRequest t rider =>
    let w0 := notify w t .riderKind .request (w.riders rider).identifier
        (w.riders rider).origin
    let (w1, od) := Dispatcher.request_driver w0 rider
    (match od with
     | some driver =>
       let (d', travel_time) :=
         (w1.drivers driver).start_drive (w1.riders rider).origin
       let w2 := { w1 with drivers := updDriver w1.drivers driver d' }
       (w2, [Event.pickup (t + travel_time) driver rider,
             Event.cancellation (t + (w2.riders rider).patience) rider])
     | none =>
       (w1, [Event.cancellation (t + (w1.riders rider).patience) rider]))
  | .driverRequest t driver =>
    let w0 := notify w t .driverKind .request (w.drivers driver).id
        (w.drivers driver).location
    let (w1, or) := Dispatcher.request_rider w0 driver
    (match or with
     | some rider =>
       let (d', travel_time) :=
         (w1.drivers driver).start_drive (w1.riders rider).origin
       let w2 := { w1 with drivers := updDriver w1.drivers driver d' }
       (w2, [Event.pickup (t + travel_time) driver rider])
     | none => (w1, []))
  | .cancellation t rider =>
    if (w.riders rider).status ≠ .satisfied then
      let w0 := notify w t .riderKind .cancel (w.riders rider).identifier
          (w.riders rider).origin
      let r' := { w0.riders rider with status := RiderStatus.cancelled }
      let w1 := { w0 with riders := updRider w0.riders rider r' }
      (Dispatcher.cancel_ride w1 rider, [])
    else (w, [])
  | .pickup t driver rider =>
    let d1 := (w.drivers driver).end_drive
    let w1 := { w with drivers := updDriver w.drivers driver d1 }
    let w2 := notify w1 t .driverKind .pickupAct d1.id d1.location
    if (w2.riders rider).status = .waiting then
      let (d2, travel_time) := ((w2.drivers driver).start_ride (w2.riders rider))
      let w3 := { w2 with drivers := updDriver w2.drivers driver d2 }
      let w4 := notify w3 t .riderKind .pickupAct (w3.riders rider).identifier
          (w3.riders rider).origin
      let r' := { w4.riders rider with status := RiderStatus.satisfied }
      let w5 := { w4 with riders := updRider w4.riders rider r' }
      (w5, [Event.dropoff (t + travel_time) driver rider])
    else if (w2.riders rider).status = .cancelled then
      (w2, [Event.driverRequest t driver])
    else (w2, [])
  | .dropoff t driver rider =>
    let d1 := (w.drivers driver).end_ride
    let w1 := { w with drivers := updDriver w.drivers driver d1 }
    let w2 := notify w1 t .driverKind .dropoffAct d1.id d1.location
    let w3 := notify w2 t .riderKind .dropoffAct (w2.riders rider).identifier
        (w2.riders rider).destination
    (w3, [Event.driverRequest t driver])

/-- Execution of a whole sequence of events, one `do` after the other
(the simulation driver's loop body, the queue itself abstracted away). -/
def runEvents (w : World) (es : List Event) : World :=
  es.foldl (fun w e => (doEvent e w).1) w

/-- Recursive restatement of the `add` loop: insert the item immediately
before the first list element it is strictly less than, else append. -/
def insertB (lt : α → α → Bool) (item : α) : List α → List α
  | [] => [item]
  | x :: xs => if lt item x then item :: x :: xs else x :: insertB lt item xs

/-- Documented driver representation invariant: a destination is present
exactly while the driver is busy. -/
def driverInvariant (d : Driver) : Prop :=
  d.destination ≠ none ↔ d.is_idle = false

/-- Concrete world used to instantiate dispatcher theorems: one rider
object `r` already SATISFIED and waiting-pool `[r]`, one idle driver
object `d`. -/
def wSatisfied : World :=
  { riders := fun _ => { mkRider ("r") 5 ⟨1, 1⟩ ⟨4, 4⟩ with
      status := RiderStatus.satisfied }
    drivers := fun _ => mkDriver ("d") ⟨0, 0⟩ 1
    driver_list := [("d")]
    rider_list := [("r")]
    log := [] }

/-- Invariant of the `request_driver` scan after the pool prefix `pre` has
been processed: with no candidate yet, `curr_min` is still the sentinel
and every idle driver seen so far has travel time at least the sentinel;
with candidate `b`, `b` is an idle driver of `pre` whose travel time is
`curr_min`, below the sentinel, minimal among the idle drivers seen, and
strictly below the travel times of the idle drivers before it. -/
def ScanInv (w : World) (origin : Location) (pre : List String)
    (acc : Nat × Option String) : Prop :=
  match acc.2 with
  | none =>
      acc.1 = currMinInit
      ∧ ∀ d ∈ pre, (w.drivers d).is_idle = true →
          currMinInit ≤ (w.drivers d).get_travel_time origin
  | some b =>
      ∃ l₁ l₂, pre = l₁ ++ b :: l₂
        ∧ (w.drivers b).is_idle = true
        ∧ acc.1 = (w.drivers b).get_travel_time origin
        ∧ acc.1 < currMinInit
        ∧ (∀ e ∈ pre, (w.drivers e).is_idle = true →
            acc.1 ≤ (w.drivers e).get_travel_time origin)
        ∧ ∀ e ∈ l₁, (w.drivers e).is_idle = true →
            acc.1 < (w.drivers e).get_travel_time origin

/-- Concrete world whose single idle driver is `10^10` blocks away from
the rider's origin at speed 1, so its travel time reaches the scan's
sentinel initial value. -/
def wFar : World :=
  { riders := fun _ => mkRider ("r") 5 ⟨10000000000, 0⟩ ⟨0, 0⟩
    drivers := fun _ => mkDriver ("d") ⟨0, 0⟩ 1
    driver_list := [("d")]
    rider_list := []
    log := [] }

/-- Concrete world with two idle drivers at travel times 3 and 2; the
amended claim C1 selects the closer second driver. -/
def wNear : World :=
  { riders := fun _ => mkRider ("r") 5 ⟨0, 3⟩ ⟨4, 4⟩
    drivers := fun x =>
      if x = "d2" then mkDriver ("d2") ⟨0, 1⟩ 1 else mkDriver ("d1") ⟨0, 0⟩ 1
    driver_list := [("d1"), ("d2")]
    rider_list := []
    log := [] }

/-- Concrete world in which the rider `r` is already waiting and no
driver is registered; a second `request_driver` call for `r` enqueues it
again. -/
def wDup : World :=
  { riders := fun _ => mkRider ("r") 5 ⟨1, 1⟩ ⟨4, 4⟩
    drivers := fun _ => mkDriver ("d") ⟨0, 0⟩ 1
    driver_list := []
    rider_list := [("r")]
    log := [] }

/-- Concrete busy driver: mid-drive towards `(1, 1)`. -/
def driverBusy : Driver :=
  { mkDriver ("d0") ⟨0, 0⟩ 1 with is_idle := false, destination := some ⟨1, 1⟩ }

/-- Concrete world with one busy driver and one other rider waiting. -/
def wBusy : World :=
  { riders := fun _ => mkRider ("q") 5 ⟨1, 1⟩ ⟨4, 4⟩
    drivers := fun _ => driverBusy
    driver_list := [("d0")]
    rider_list := [("q")]
    log := [] }

/-- Travel-time formula stated by claim C5 for the ride from the rider's
origin to the rider's destination at the driver's speed. -/
def claimRideTime (w : World) (dvr rid : String) : Nat :=
  roundDiv
    (manhattan_distance (w.riders rid).origin (w.riders rid).destination)
    (w.drivers dvr).speed

/-- Concrete driver mid-drive towards the rider origin `(0, 0)`. -/
def driverArrived : Driver := ⟨"d", ⟨4, 4⟩, 2, false, some ⟨0, 0⟩⟩

/-- Concrete world for the pickup round trip: waiting rider from `(0,0)`
to `(2,3)`, driver about to arrive at `(0,0)` with speed 2. -/
def wPickup : World :=
  { riders := fun _ => mkRider ("r") 5 ⟨0, 0⟩ ⟨2, 3⟩
    drivers := fun _ => driverArrived
    driver_list := [("d")]
    rider_list := []
    log := [] }

/-- Concrete world for claim C10: SATISFIED rider, driver still driving
towards `(0, 0)`. -/
def wPickupSat : World :=
  { riders := wSatisfied.riders
    drivers := fun _ => driverArrived
    driver_list := [("d")]
    rider_list := []
    log := [] }

theorem foldl_addStep_inserted (lt : α → α → Bool) (item : α) :
    ∀ (l : List α) (acc : List α),
      l.foldl (addStep lt item) (true, acc) = (true, acc ++ l) := by
  intro l
  induction l with
  | nil => intro acc; simp
  | cons x xs ih =>
    intro acc
    simp only [List.foldl_cons]
    rw [show addStep lt item (true, acc) x = (true, acc ++ [x]) by
      simp [addStep]]
    rw [ih]
    simp

theorem foldl_addStep_go (lt : α → α → Bool) (item : α) :
    ∀ (l : List α) (acc : List α),
      (if !(l.foldl (addStep lt item) (false, acc)).1
       then (l.foldl (addStep lt item) (false, acc)).2 ++ [item]
       else (l.foldl (addStep lt item) (false, acc)).2)
        = acc ++ insertB lt item l := by
  intro l
  induction l with
  | nil => intro acc; simp [insertB]
  | cons x xs ih =>
    intro acc
    simp only [List.foldl_cons, insertB]
    by_cases h : lt item x = true
    · rw [show addStep lt item (false, acc) x = (true, acc ++ [item, x]) by
        simp [addStep, h]]
      rw [foldl_addStep_inserted]
      simp [h]
    · rw [show addStep lt item (false, acc) x = (false, acc ++ [x]) by
        simp [addStep, h]]
      rw [ih (acc ++ [x])]
      simp [h]

/-- The translated loop of `PriorityQueue.add` computes exactly the
first-strictly-greater insertion. -/
theorem PriorityQueue.add_eq (lt : α → α → Bool) (q : PriorityQueue α)
    (item : α) : q.add lt item = ⟨insertB lt item q.items⟩ := by
  have h := foldl_addStep_go lt item q.items []
  simp only [List.nil_append] at h
  simp only [PriorityQueue.add]
  by_cases hb : (q.items.foldl (addStep lt item) (false, [])).1 = true
  · simp only [hb, Bool.not_true, Bool.false_eq_true, if_false] at h ⊢
    exact congrArg PriorityQueue.mk h
  · simp only [Bool.not_eq_true] at hb
    simp only [hb, Bool.not_false, if_true] at h ⊢
    exact congrArg PriorityQueue.mk h

theorem insertB_perm (lt : α → α → Bool) (item : α) :
    ∀ l : List α, (insertB lt item l).Perm (item :: l) := by
  intro l
  induction l with
  | nil => simp [insertB]
  | cons x xs ih =>
    simp only [insertB]
    by_cases h : lt item x = true
    · simp [h]
    · simp only [h, Bool.false_eq_true, if_false]
      exact (ih.cons x).trans (List.Perm.swap item x xs)

section PQKey

variable {γ : Type} [LinearOrder γ]

theorem insertB_pairwise (key : α → γ) (item : α) :
    ∀ l : List α, l.Pairwise (fun a b => key a ≤ key b) →
      (insertB (ltKey key) item l).Pairwise (fun a b => key a ≤ key b) := by
  intro l
  induction l with
  | nil => intro _; simp [insertB]
  | cons x xs ih =>
    intro hl
    rw [List.pairwise_cons] at hl
    obtain ⟨hx, hxs⟩ := hl
    simp only [insertB]
    by_cases h : ltKey key item x = true
    · have hlt : key item < key x := by simpa [ltKey] using h
      rw [if_pos h]
      refine List.Pairwise.cons ?_ (List.Pairwise.cons hx hxs)
      intro b hb
      rcases List.mem_cons.mp hb with hbx | hbxs
      · exact hbx ▸ hlt.le
      · exact hlt.le.trans (hx b hbxs)
    · have hnlt : ¬key item < key x := by simpa [ltKey] using h
      rw [if_neg h]
      refine List.Pairwise.cons ?_ (ih hxs)
      intro b hb
      have hb' := (insertB_perm (ltKey key) item xs).mem_iff.mp hb
      rcases List.mem_cons.mp hb' with hbi | hbxs
      · exact hbi ▸ le_of_not_lt hnlt
      · exact hx b hbxs

theorem filter_key_eq_nil (key : α → γ) (p : γ) (l : List α)
    (h : ∀ b ∈ l, p < key b) :
    l.filter (fun x => key x == p) = [] := by
  rw [List.filter_eq_nil_iff]
  intro a ha
  simp only [beq_iff_eq]
  exact fun hc => absurd hc (ne_of_gt (h a ha))

theorem insertB_filter (key : α → γ) (item : α) (p : γ) :
    ∀ l : List α, l.Pairwise (fun a b => key a ≤ key b) →
      (insertB (ltKey key) item l).filter (fun x => key x == p)
        = l.filter (fun x => key x == p)
          ++ if key item = p then [item] else [] := by
  intro l
  induction l with
  | nil =>
    intro _
    by_cases hp : key item = p
    · simp [insertB, List.filter_cons, hp]
    · simp [insertB, List.filter_cons, hp]
  | cons x xs ih =>
    intro hl
    rw [List.pairwise_cons] at hl
    obtain ⟨hx, hxs⟩ := hl
    simp only [insertB]
    by_cases h : ltKey key item x = true
    · have hlt : key item < key x := by simpa [ltKey] using h
      rw [if_pos h]
      by_cases hp : key item = p
      · have hnil : (x :: xs).filter (fun y => key y == p) = [] := by
          refine filter_key_eq_nil key p (x :: xs) ?_
          intro b hb
          rcases List.mem_cons.mp hb with hbx | hbxs
          · exact hbx ▸ (hp ▸ hlt)
          · exact lt_of_lt_of_le (hp ▸ hlt) (hx b hbxs)
        rw [List.filter_cons]
        simp [hp, hnil]
      · rw [List.filter_cons]
        simp [hp]
    · have hnlt : ¬key item < key x := by simpa [ltKey] using h
      rw [if_neg h]
      rw [List.filter_cons, List.filter_cons, ih hxs]
      by_cases hxp : key x = p
      · simp [hxp]
      · simp [hxp]

theorem pqOfList_go (key : α → γ) :
    ∀ (xs : List α) (q : PriorityQueue α),
      q.items.Pairwise (fun a b => key a ≤ key b) →
      (xs.foldl (PriorityQueue.add (ltKey key)) q).items.Pairwise
          (fun a b => key a ≤ key b)
      ∧ ∀ p : γ,
          (xs.foldl (PriorityQueue.add (ltKey key)) q).items.filter
              (fun x => key x == p)
            = q.items.filter (fun x => key x == p)
              ++ xs.filter (fun x => key x == p) := by
  intro xs
  induction xs with
  | nil => intro q hq; refine ⟨hq, ?_⟩; intro p; simp
  | cons a xs ih =>
    intro q hq
    simp only [List.foldl_cons, PriorityQueue.add_eq]
    have hq' : (insertB (ltKey key) a q.items).Pairwise
        (fun a b => key a ≤ key b) := insertB_pairwise key a q.items hq
    obtain ⟨ih1, ih2⟩ := ih ⟨insertB (ltKey key) a q.items⟩ hq'
    refine ⟨ih1, ?_⟩
    intro p
    rw [ih2 p]
    simp only
    rw [insertB_filter key a p q.items hq, List.filter_cons]
    by_cases hap : key a = p
    · simp [hap]
    · simp [hap]

theorem pqOfList_perm_go (lt : α → α → Bool) :
    ∀ (xs : List α) (q : PriorityQueue α),
      (xs.foldl (PriorityQueue.add lt) q).items.Perm (q.items ++ xs) := by
  intro xs
  induction xs with
  | nil => intro q; simp
  | cons a xs ih =>
    intro q
    simp only [List.foldl_cons, PriorityQueue.add_eq]
    have h1 := ih ⟨insertB lt a q.items⟩
    have h2 : (insertB lt a q.items ++ xs).Perm ((a :: q.items) ++ xs) :=
      (insertB_perm lt a q.items).append_right xs
    have h3 : ((a :: q.items) ++ xs).Perm (q.items ++ a :: xs) :=
      List.perm_middle.symm
    exact h1.trans (h2.trans h3)

/-- Permutation fact: the queue built by `add`-ing `xs` holds exactly the
elements of `xs`. -/
theorem pqOfList_perm (lt : α → α → Bool) (xs : List α) :
    (pqOfList lt xs).items.Perm xs := by
  simpa using pqOfList_perm_go lt xs ⟨[]⟩

/-- Draining just reads the backing list off element by element. -/
theorem drainList_eq : ∀ l : List α, drainList l = l := by
  intro l
  induction l with
  | nil => rfl
  | cons x xs ih => simp [drainList, ih]

end PQKey

/-- Claim C2: adding any sequence of prioritised items (priority `Int`,
payload tag `Nat`, compared by priority alone as the source compares with
`__lt__`) and then removing repeatedly yields the items in ascending
priority order, items of equal priority coming out in insertion order
(the filter at each priority value is unchanged); in particular priorities
`[2,1,1,3,2]` drain as `[1,1,2,2,3]` with the equal items in original
relative order. -/
theorem C2_priority_queue_stable_order :
    (∀ xs : List (Int × Nat),
      ((pqOfList (ltKey Prod.fst) xs).drain).Pairwise
          (fun a b : Int × Nat => a.1 ≤ b.1)
      ∧ ∀ p : Int,
          ((pqOfList (ltKey Prod.fst) xs).drain).filter (fun x => x.1 == p)
            = xs.filter (fun x => x.1 == p))
    ∧ (pqOfList (ltKey Prod.fst)
        [((2 : Int), (0 : Nat)), (1, 1), (1, 2), (3, 3), (2, 4)]).drain
      = [(1, 1), (1, 2), (2, 0), (2, 4), (3, 3)] := by
  constructor
  · intro xs
    obtain ⟨h1, h2⟩ := pqOfList_go (Prod.fst : Int × Nat → Int) xs ⟨[]⟩ (by simp)
    constructor
    · rw [PriorityQueue.drain, drainList_eq]
      exact h1
    · intro p
      rw [PriorityQueue.drain, drainList_eq]
      have h3 := h2 p
      simpa using h3
  · decide

/-- Claim C8, counterexample: `remove()` on an empty queue does not fail
with the `EmptyQueueError` the claim names; Python's `list.pop(0)` raises
the built-in `IndexError`, and no `EmptyQueueError` class exists in the
sources. -/
theorem C8_counterexample :
    ¬((⟨[]⟩ : PriorityQueue Event).remove
        = Except.error PyError.emptyQueueError)
    ∧ (⟨[]⟩ : PriorityQueue Event).remove = Except.error PyError.indexError := by
  refine ⟨?_, rfl⟩
  intro h
  simp [PriorityQueue.remove] at h

/-- Claim C8, amended: `remove()` on an empty queue fails with an
`IndexError` (there is no `EmptyQueueError` in the code); on any queue
built from a nonempty insertion sequence it returns an element whose
timestamp is minimal among the inserted events, together with the queue
of the remaining items. -/
theorem C8_remove_behaviour :
    ((⟨[]⟩ : PriorityQueue Event).remove = Except.error PyError.indexError)
    ∧ ∀ xs : List Event, xs ≠ [] →
        ∃ (m : Event) (q' : PriorityQueue Event),
          (pqOfList (ltKey Event.timestamp) xs).remove = Except.ok (m, q')
          ∧ m ∈ xs ∧ ∀ e ∈ xs, m.timestamp ≤ e.timestamp := by
  constructor
  · rfl
  · intro xs hxs
    have hperm : (pqOfList (ltKey Event.timestamp) xs).items.Perm xs :=
      pqOfList_perm (ltKey Event.timestamp) xs
    have hsorted : (pqOfList (ltKey Event.timestamp) xs).items.Pairwise
        (fun a b => a.timestamp ≤ b.timestamp) :=
      (pqOfList_go Event.timestamp xs ⟨[]⟩ (by simp)).1
    cases hitem : (pqOfList (ltKey Event.timestamp) xs).items with
    | nil =>
      rw [hitem] at hperm
      exact absurd hperm.nil_eq.symm hxs
    | cons m rest =>
      refine ⟨m, ⟨rest⟩, ?_, ?_, ?_⟩
      · simp [PriorityQueue.remove, hitem]
      · refine hperm.subset ?_
        rw [hitem]
        exact List.mem_cons_self m rest
      · intro e he
        have he' : e ∈ m :: rest := by
          rw [← hitem]
          exact hperm.mem_iff.mpr he
        rw [hitem] at hsorted
        rcases List.mem_cons.mp he' with rfl | hrest
        · exact le_refl _
        · exact (List.pairwise_cons.mp hsorted).1 e hrest

/-- Claim C8's amended theorem, instantiated: a concrete two-event queue
removes the earlier event first. -/
theorem C8_remove_behaviour_witness :
    ∃ (m : Event) (q' : PriorityQueue Event),
      (pqOfList (ltKey Event.timestamp)
          [Event.riderRequest 3 ("r"), Event.driverRequest 1 ("d")]).remove
        = Except.ok (m, q')
      ∧ m ∈ [Event.riderRequest 3 ("r"), Event.driverRequest 1 ("d")]
      ∧ ∀ e ∈ [Event.riderRequest 3 ("r"), Event.driverRequest 1 ("d")],
          m.timestamp ≤ e.timestamp :=
  C8_remove_behaviour.2
    [Event.riderRequest 3 ("r"), Event.driverRequest 1 ("d")] (by decide)

/-- Claim C4: the invariant `destination` non-none iff not idle holds
after construction and is preserved by `start_drive`, `start_ride`
(locations are always non-none in the embedding), and by `end_drive` and
`end_ride` under their documented precondition that a destination is
present. -/
theorem C4_driver_invariant :
    (∀ (i : String) (l : Location) (s : Nat), driverInvariant (mkDriver i l s))
    ∧ (∀ (d : Driver) (loc : Location), driverInvariant d →
        driverInvariant (d.start_drive loc).1)
    ∧ (∀ (d : Driver) (r : Rider), driverInvariant d →
        driverInvariant (d.start_ride r).1)
    ∧ (∀ d : Driver, driverInvariant d → d.destination ≠ none →
        driverInvariant d.end_drive)
    ∧ (∀ d : Driver, driverInvariant d → d.destination ≠ none →
        driverInvariant d.end_ride) := by
  refine ⟨?_, ?_, ?_, ?_, ?_⟩
  · intro i l s
    simp [driverInvariant, mkDriver]
  · intro d loc _
    simp [driverInvariant, Driver.start_drive]
  · intro d r _
    simp [driverInvariant, Driver.start_ride]
  · intro d _ hd
    match hdst : d.destination with
    | some dest => simp [driverInvariant, Driver.end_drive, hdst]
    | none => exact absurd hdst hd
  · intro d _ hd
    match hdst : d.destination with
    | some dest => simp [driverInvariant, Driver.end_ride, hdst]
    | none => exact absurd hdst hd

/-- Claim C4's theorem applied at a concrete driver: construct, start a
drive, end the drive; the invariant holds at each step. -/
theorem C4_driver_invariant_witness :
    driverInvariant ((mkDriver ("d") ⟨0, 0⟩ 1).start_drive ⟨1, 1⟩).1
    ∧ driverInvariant ((mkDriver ("d") ⟨0, 0⟩ 1).start_drive ⟨1, 1⟩).1.end_drive
    ∧ driverInvariant
        ((mkDriver ("d") ⟨2, 2⟩ 3).start_ride
          (mkRider ("r") 5 ⟨1, 1⟩ ⟨4, 4⟩)).1.end_ride :=
  ⟨C4_driver_invariant.2.1 (mkDriver ("d") ⟨0, 0⟩ 1) ⟨1, 1⟩
     (by simp [driverInvariant, mkDriver]),
   C4_driver_invariant.2.2.2.1 ((mkDriver ("d") ⟨0, 0⟩ 1).start_drive ⟨1, 1⟩).1
     (C4_driver_invariant.2.1 (mkDriver ("d") ⟨0, 0⟩ 1) ⟨1, 1⟩
       (by simp [driverInvariant, mkDriver]))
     (by simp [mkDriver, Driver.start_drive]),
   C4_driver_invariant.2.2.2.2 ((mkDriver ("d") ⟨2, 2⟩ 3).start_ride
       (mkRider ("r") 5 ⟨1, 1⟩ ⟨4, 4⟩)).1
     (C4_driver_invariant.2.2.1 (mkDriver ("d") ⟨2, 2⟩ 3)
       (mkRider ("r") 5 ⟨1, 1⟩ ⟨4, 4⟩) (by simp [driverInvariant, mkDriver]))
     (by simp [mkDriver, mkRider, Driver.start_ride])⟩

/-- Claim C7: `cancel_ride` removes the rider's first occurrence from the
waiting pool (`List.erase`, which leaves the pool unchanged when the
rider is absent), unconditionally sets that rider's status to CANCELLED —
also when it was already SATISFIED, as the universal quantification over
worlds includes — and mutates no other rider. -/
theorem C7_cancel_ride (w : World) (rid : String) :
    (Dispatcher.cancel_ride w rid).rider_list = w.rider_list.erase rid
    ∧ ((Dispatcher.cancel_ride w rid).riders rid).status = RiderStatus.cancelled
    ∧ ∀ other : String, other ≠ rid →
        (Dispatcher.cancel_ride w rid).riders other = w.riders other := by
  refine ⟨?_, ?_, ?_⟩
  · by_cases h : rid ∈ w.rider_list
    · simp [Dispatcher.cancel_ride, h]
    · simp [Dispatcher.cancel_ride, h, List.erase_of_not_mem h]
  · by_cases h : rid ∈ w.rider_list <;>
      simp [Dispatcher.cancel_ride, h, updRider]
  · intro other hne
    by_cases h : rid ∈ w.rider_list <;>
      simp [Dispatcher.cancel_ride, h, updRider, hne]

/-- Claim C7's theorem applied at a concrete world whose rider is already
SATISFIED: cancelling still empties the pool, sets CANCELLED, and leaves
the other rider objects alone. -/
theorem C7_cancel_ride_witness :
    (Dispatcher.cancel_ride wSatisfied ("r")).rider_list
        = wSatisfied.rider_list.erase ("r")
    ∧ ((Dispatcher.cancel_ride wSatisfied ("r")).riders ("r")).status
        = RiderStatus.cancelled
    ∧ (Dispatcher.cancel_ride wSatisfied ("r")).riders ("q")
        = wSatisfied.riders ("q") :=
  ⟨(C7_cancel_ride wSatisfied ("r")).1,
   (C7_cancel_ride wSatisfied ("r")).2.1,
   (C7_cancel_ride wSatisfied ("r")).2.2 ("q") (by decide)⟩

/-- Claim C9, counterexample: a three-field string does not fail at all —
`deserialize_location` reads the first two fields and ignores the rest,
so the claim's "fails for every string with more than two fields" is
false at `"1,2,3"`. -/
theorem C9_counterexample :
    deserialize_location ("1,2,3") = Except.ok ⟨1, 2⟩
    ∧ splitOnComma ("1,2,3").data = [['1'], ['2'], ['3']] :=
  ⟨rfl, rfl⟩

/-- Claim C9, amended: deserialization returns `Location(a, b)` exactly
when the comma-split of the input has at least two fields and the first
two parse as integers `a` and `b` under Python `int` (surrounding
whitespace, one sign, digit runs with medial underscores) — extra fields
are ignored; every failure is a `ValueError` (unparseable needed field)
or an `IndexError` (no comma), never the `FormatError` the documentation
names. -/
theorem C9_deserialize_amended (s : String) :
    (∀ a b : Int,
      deserialize_location s = Except.ok ⟨a, b⟩ ↔
        ∃ (p0 p1 : List Char) (rest : List (List Char)),
          splitOnComma s.data = p0 :: p1 :: rest
          ∧ pyInt p0 = some a ∧ pyInt p1 = some b)
    ∧ ∀ e : PyError, deserialize_location s = Except.error e →
        e = PyError.valueError ∨ e = PyError.indexError := by
  constructor
  · intro a b
    constructor
    · intro h
      cases hsp : splitOnComma s.data with
      | nil => simp [deserialize_location, hsp] at h
      | cons p0 rest =>
        cases h0 : pyInt p0 with
        | none => simp [deserialize_location, hsp, h0] at h
        | some a' =>
          cases rest with
          | nil => simp [deserialize_location, hsp, h0] at h
          | cons p1 rest' =>
            cases h1 : pyInt p1 with
            | none => simp [deserialize_location, hsp, h0, h1] at h
            | some b' =>
              simp only [deserialize_location, hsp, h0, h1,
                Except.ok.injEq, Location.mk.injEq] at h
              exact ⟨p0, p1, rest', rfl, by rw [h0, h.1], by rw [h1, h.2]⟩
    · rintro ⟨p0, p1, rest, hsp, h0, h1⟩
      simp [deserialize_location, hsp, h0, h1]
  · intro e he
    cases hsp : splitOnComma s.data with
    | nil =>
      simp [deserialize_location, hsp] at he
      exact Or.inr he.symm
    | cons p0 rest =>
      cases h0 : pyInt p0 with
      | none =>
        simp [deserialize_location, hsp, h0] at he
        exact Or.inl he.symm
      | some a' =>
        cases rest with
        | nil =>
          simp [deserialize_location, hsp, h0] at he
          exact Or.inr he.symm
        | cons p1 rest' =>
          cases h1 : pyInt p1 with
          | none =>
            simp [deserialize_location, hsp, h0, h1] at he
            exact Or.inl he.symm
          | some b' => simp [deserialize_location, hsp, h0, h1] at he

/-- Claim C9's amended theorem applied at `"3,4"`. -/
theorem C9_deserialize_amended_witness :
    deserialize_location ("3,4") = Except.ok ⟨3, 4⟩ :=
  ((C9_deserialize_amended ("3,4")).1 3 4).mpr
    ⟨['3'], ['4'], [], rfl, rfl, rfl⟩

theorem scanStep_inv (w : World) (origin : Location) (pre : List String)
    (d : String) :
    ∀ acc : Nat × Option String, ScanInv w origin pre acc →
      ScanInv w origin (pre ++ [d]) (scanStep w origin acc d) := by
  rintro ⟨m, ob⟩ h
  by_cases hid : (w.drivers d).is_idle = true
  · by_cases hlt : (w.drivers d).get_travel_time origin < m
    · have hstep : scanStep w origin (m, ob) d
          = ((w.drivers d).get_travel_time origin, some d) := by
        simp [scanStep, hid, hlt]
      rw [hstep]
      cases ob with
      | none =>
        simp only [ScanInv] at h
        obtain ⟨hm, hall⟩ := h
        simp only [ScanInv]
        refine ⟨pre, [], by simp, hid, by simp, hm ▸ hlt, ?_, ?_⟩
        · intro e he hie
          rcases List.mem_append.mp he with hpre | hd
          · exact le_of_lt (lt_of_lt_of_le (hm ▸ hlt) (hall e hpre hie))
          · rcases List.mem_singleton.mp hd with rfl
            exact le_refl _
        · intro e he hie
          exact lt_of_lt_of_le (hm ▸ hlt) (hall e he hie)
      | some b =>
        simp only [ScanInv] at h
        obtain ⟨l₁, l₂, hpre, hbidle, hmeq, hmlt, hall, hstrict⟩ := h
        simp only [ScanInv]
        refine ⟨pre, [], by simp, hid, by simp, lt_trans hlt hmlt, ?_, ?_⟩
        · intro e he hie
          rcases List.mem_append.mp he with hpre' | hd
          · exact le_of_lt (lt_of_lt_of_le hlt (hall e hpre' hie))
          · rcases List.mem_singleton.mp hd with rfl
            exact le_refl _
        · intro e he hie
          exact lt_of_lt_of_le hlt (hall e he hie)
    · have hstep : scanStep w origin (m, ob) d = (m, ob) := by
        simp [scanStep, hid, hlt]
      rw [hstep]
      cases ob with
      | none =>
        simp only [ScanInv] at h ⊢
        obtain ⟨hm, hall⟩ := h
        refine ⟨hm, ?_⟩
        intro e he hie
        rcases List.mem_append.mp he with hpre | hd
        · exact hall e hpre hie
        · rcases List.mem_singleton.mp hd with rfl
          exact hm ▸ le_of_not_lt hlt
      | some b =>
        simp only [ScanInv] at h ⊢
        obtain ⟨l₁, l₂, hpre, hbidle, hmeq, hmlt, hall, hstrict⟩ := h
        refine ⟨l₁, l₂ ++ [d], by rw [hpre]; simp, hbidle, hmeq, hmlt, ?_,
          hstrict⟩
        intro e he hie
        rcases List.mem_append.mp he with hpre' | hd
        · exact hall e hpre' hie
        · rcases List.mem_singleton.mp hd with rfl
          exact le_of_not_lt hlt
  · have hstep : scanStep w origin (m, ob) d = (m, ob) := by
      simp [scanStep, hid]
    rw [hstep]
    cases ob with
    | none =>
      simp only [ScanInv] at h ⊢
      obtain ⟨hm, hall⟩ := h
      refine ⟨hm, ?_⟩
      intro e he hie
      rcases List.mem_append.mp he with hpre | hd
      · exact hall e hpre hie
      · rcases List.mem_singleton.mp hd with rfl
        exact absurd hie hid
    | some b =>
      simp only [ScanInv] at h ⊢
      obtain ⟨l₁, l₂, hpre, hbidle, hmeq, hmlt, hall, hstrict⟩ := h
      refine ⟨l₁, l₂ ++ [d], by rw [hpre]; simp, hbidle, hmeq, hmlt, ?_,
        hstrict⟩
      intro e he hie
      rcases List.mem_append.mp he with hpre' | hd
      · exact hall e hpre' hie
      · rcases List.mem_singleton.mp hd with rfl
        exact absurd hie hid

theorem scan_go (w : World) (origin : Location) :
    ∀ (l pre : List String) (acc : Nat × Option String),
      ScanInv w origin pre acc →
      ScanInv w origin (pre ++ l) (l.foldl (scanStep w origin) acc) := by
  intro l
  induction l with
  | nil => intro pre acc h; simpa using h
  | cons d l ih =>
    intro pre acc h
    have h' := scanStep_inv w origin pre d acc h
    have h'' := ih (pre ++ [d]) (scanStep w origin acc d) h'
    simpa [List.append_assoc] using h''

theorem requestScan_spec (w : World) (origin : Location) :
    ScanInv w origin w.driver_list (requestScan w origin) := by
  have h0 : ScanInv w origin [] (currMinInit, none) := by
    simp only [ScanInv]
    exact ⟨by simp, by intro d hd; simp at hd⟩
  have h := scan_go w origin w.driver_list [] (currMinInit, none) h0
  simpa [requestScan] using h

theorem request_driver_snd (w : World) (rid : String) :
    (Dispatcher.request_driver w rid).2
      = (requestScan w (w.riders rid).origin).2 := by
  rcases hscan : (requestScan w (w.riders rid).origin).2 with _ | d
  · simp [Dispatcher.request_driver, hscan]
  · by_cases h : rid ∈ w.rider_list <;>
      simp [Dispatcher.request_driver, hscan, h]

/-- Claim C1, counterexample: an idle registered driver exists, yet
`request_driver` returns none, because the driver's travel time is not
below the sentinel `curr_min = 10^10`; so "returns none exactly when no
idle driver exists" is false at this pool. -/
theorem C1_counterexample :
    (Dispatcher.request_driver wFar ("r")).2 = none
    ∧ ("d") ∈ wFar.driver_list
    ∧ (wFar.drivers ("d")).is_idle = true := by
  refine ⟨?_, by decide, rfl⟩
  rfl

/-- Claim C1, amended: over pools whose drivers all have positive speed
(the documented invariant), `request_driver` considers exactly the idle
drivers and returns the first idle driver achieving the minimal rounded
travel time to the rider's origin, provided that minimum is below the
sentinel `10^10`; it returns none exactly when every idle driver (in
particular, when none exists) has travel time at least the sentinel. -/
theorem C1_request_driver_min (w : World) (rid : String)
    (hs : ∀ d ∈ w.driver_list, 0 < (w.drivers d).speed) :
    ((Dispatcher.request_driver w rid).2 = none ↔
      ∀ d ∈ w.driver_list, (w.drivers d).is_idle = true →
        currMinInit ≤ (w.drivers d).get_travel_time (w.riders rid).origin)
    ∧ ∀ d : String, (Dispatcher.request_driver w rid).2 = some d →
        ∃ l₁ l₂ : List String,
          w.driver_list = l₁ ++ d :: l₂
          ∧ (w.drivers d).is_idle = true
          ∧ (w.drivers d).get_travel_time (w.riders rid).origin < currMinInit
          ∧ (∀ e ∈ w.driver_list, (w.drivers e).is_idle = true →
              (w.drivers d).get_travel_time (w.riders rid).origin
                ≤ (w.drivers e).get_travel_time (w.riders rid).origin)
          ∧ ∀ e ∈ l₁, (w.drivers e).is_idle = true →
              (w.drivers d).get_travel_time (w.riders rid).origin
                < (w.drivers e).get_travel_time (w.riders rid).origin := by
  have hinv := requestScan_spec w (w.riders rid).origin
  constructor
  · constructor
    · intro hnone d hd hid
      rw [request_driver_snd] at hnone
      rw [ScanInv] at hinv
      rw [hnone] at hinv
      exact hinv.2 d hd hid
    · intro hall
      rw [request_driver_snd]
      rcases hscan : (requestScan w (w.riders rid).origin).2 with _ | b
      · rfl
      · rw [ScanInv] at hinv
        rw [hscan] at hinv
        obtain ⟨l₁, l₂, hpre, hbidle, hmeq, hmlt, _, _⟩ := hinv
        have hb : b ∈ w.driver_list := by
          rw [hpre]
          exact List.mem_append.mpr (Or.inr (List.mem_cons_self b l₂))
        have := hall b hb hbidle
        rw [← hmeq] at this
        exact absurd hmlt (not_lt.mpr this)
  · intro d hsome
    rw [request_driver_snd] at hsome
    rw [ScanInv] at hinv
    rw [hsome] at hinv
    obtain ⟨l₁, l₂, hpre, hbidle, hmeq, hmlt, hall, hstrict⟩ := hinv
    refine ⟨l₁, l₂, hpre, hbidle, hmeq ▸ hmlt, ?_, ?_⟩
    · intro e he hie
      exact hmeq ▸ hall e he hie
    · intro e he hie
      exact hmeq ▸ hstrict e he hie

/-- Claim C1's amended theorem applied at `wNear`, where the scan selects
driver `d2` with travel time 2 over `d1` with travel time 3. -/
theorem C1_request_driver_min_witness :
    ∃ l₁ l₂ : List String,
      wNear.driver_list = l₁ ++ ("d2") :: l₂
      ∧ (wNear.drivers ("d2")).is_idle = true
      ∧ (wNear.drivers ("d2")).get_travel_time (wNear.riders ("r")).origin
          < currMinInit
      ∧ (∀ e ∈ wNear.driver_list, (wNear.drivers e).is_idle = true →
          (wNear.drivers ("d2")).get_travel_time (wNear.riders ("r")).origin
            ≤ (wNear.drivers e).get_travel_time (wNear.riders ("r")).origin)
      ∧ ∀ e ∈ l₁, (wNear.drivers e).is_idle = true →
          (wNear.drivers ("d2")).get_travel_time (wNear.riders ("r")).origin
            < (wNear.drivers e).get_travel_time (wNear.riders ("r")).origin :=
  (C1_request_driver_min wNear ("r") (by decide)).2 ("d2") (by decide)

theorem scan_none_of_no_idle (w : World) (origin : Location) :
    ∀ (l : List String) (acc : Nat × Option String),
      (∀ d ∈ l, (w.drivers d).is_idle = false) →
      l.foldl (scanStep w origin) acc = acc := by
  intro l
  induction l with
  | nil => intro acc _; rfl
  | cons d l ih =>
    intro acc hno
    have hd : (w.drivers d).is_idle = false := hno d (List.mem_cons_self d l)
    have hstep : scanStep w origin acc d = acc := by
      simp [scanStep, hd]
    rw [List.foldl_cons, hstep]
    exact ih acc (fun e he => hno e (List.mem_cons_of_mem d he))

/-- Claim C6, counterexample: with an empty driver pool (so no idle
driver) and the rider already in the waiting pool, `request_driver`
returns none but appends unconditionally, so afterwards the rider
appears twice, not exactly once. -/
theorem C6_counterexample :
    wDup.driver_list = []
    ∧ (Dispatcher.request_driver wDup ("r")).2 = none
    ∧ (Dispatcher.request_driver wDup ("r")).1.rider_list.count ("r") = 2 := by
  refine ⟨rfl, rfl, ?_⟩
  rfl

/-- Claim C6, amended: when no registered driver is idle (including the
empty pool) and the rider is not already in the waiting pool,
`request_driver` returns none and afterwards the rider appears in the
waiting pool exactly once, appended after all riders that were already
waiting. -/
theorem C6_request_driver_no_idle (w : World) (rid : String)
    (hidle : ∀ d ∈ w.driver_list, (w.drivers d).is_idle = false)
    (hmem : rid ∉ w.rider_list) :
    (Dispatcher.request_driver w rid).2 = none
    ∧ (Dispatcher.request_driver w rid).1.rider_list = w.rider_list ++ [rid]
    ∧ (Dispatcher.request_driver w rid).1.rider_list.count rid = 1 := by
  have hscan : requestScan w (w.riders rid).origin = (currMinInit, none) :=
    scan_none_of_no_idle w (w.riders rid).origin w.driver_list
      (currMinInit, none) hidle
  have h1 : Dispatcher.request_driver w rid
      = ({ w with rider_list := w.rider_list ++ [rid] }, none) := by
    simp [Dispatcher.request_driver, hscan]
  refine ⟨by rw [h1], by rw [h1], ?_⟩
  rw [h1]
  simp only [List.count_append]
  rw [List.count_eq_zero.mpr hmem]
  simp

/-- Claim C6's amended theorem applied at `wBusy`: the new rider `r` is
appended once, after the waiting rider `q`. -/
theorem C6_request_driver_no_idle_witness :
    (Dispatcher.request_driver wBusy ("r")).2 = none
    ∧ (Dispatcher.request_driver wBusy ("r")).1.rider_list
        = wBusy.rider_list ++ [("r")]
    ∧ (Dispatcher.request_driver wBusy ("r")).1.rider_list.count ("r") = 1 :=
  C6_request_driver_no_idle wBusy ("r") (by decide) (by decide)

theorem updRider_apply_same (m : String → Rider) (k : String) (v : Rider) :
    updRider m k v k = v := by
  simp [updRider]

theorem updRider_updRider (m : String → Rider) (k : String) (v v' : Rider) :
    updRider (updRider m k v) k v' = updRider m k v' := by
  funext x
  by_cases h : x = k <;> simp [updRider, h]

theorem request_driver_riders (w : World) (rid : String) :
    (Dispatcher.request_driver w rid).1.riders = w.riders := by
  rcases hscan : (requestScan w (w.riders rid).origin).2 with _ | d
  · simp [Dispatcher.request_driver, hscan]
  · by_cases h : rid ∈ w.rider_list <;>
      simp [Dispatcher.request_driver, hscan, h]

theorem request_rider_riders (w : World) (d : String) :
    (Dispatcher.request_rider w d).1.riders = w.riders := by
  cases hrl : w.rider_list with
  | nil => simp [Dispatcher.request_rider, hrl]
  | cons r rest => simp [Dispatcher.request_rider, hrl]

theorem doEvent_riders_cases (e : Event) (w : World) :
    ((doEvent e w).1.riders = w.riders)
    ∨ (∃ r, (w.riders r).status ≠ RiderStatus.satisfied ∧
        (doEvent e w).1.riders
          = updRider w.riders r
              { w.riders r with status := RiderStatus.cancelled })
    ∨ (∃ r, (doEvent e w).1.riders
          = updRider w.riders r
              { w.riders r with status := RiderStatus.satisfied }) := by
  cases e with
  | riderRequest t r =>
    left
    simp only [doEvent]
    rcases hrd : Dispatcher.request_driver
        (notify w t ActorKind.riderKind ActionKind.request
          (w.riders r).identifier (w.riders r).origin) r with ⟨w1, od⟩
    have hw1 : w1.riders = w.riders := by
      have h2 := request_driver_riders
        (notify w t ActorKind.riderKind ActionKind.request
          (w.riders r).identifier (w.riders r).origin) r
      rw [hrd] at h2
      simpa [notify] using h2
    cases od with
    | some drv => simp [hrd, Driver.start_drive, hw1]
    | none => simp [hrd, hw1]
  | driverRequest t drv =>
    left
    simp only [doEvent]
    rcases hrr : Dispatcher.request_rider
        (notify w t ActorKind.driverKind ActionKind.request
          (w.drivers drv).id (w.drivers drv).location) drv with ⟨w1, or⟩
    have hw1 : w1.riders = w.riders := by
      have h2 := request_rider_riders
        (notify w t ActorKind.driverKind ActionKind.request
          (w.drivers drv).id (w.drivers drv).location) drv
      rw [hrr] at h2
      simpa [notify] using h2
    cases or with
    | some r => simp [hrr, Driver.start_drive, hw1]
    | none => simp [hrr, hw1]
  | cancellation t r =>
    by_cases hsat : (w.riders r).status = RiderStatus.satisfied
    · left
      simp [doEvent, hsat]
    · right; left
      refine ⟨r, hsat, ?_⟩
      simp only [doEvent, if_pos hsat]
      by_cases hm : r ∈ w.rider_list <;>
        simp [Dispatcher.cancel_ride, notify, hm, updRider_updRider,
          updRider_apply_same]
  | pickup t drv r =>
    by_cases hw : (w.riders r).status = RiderStatus.waiting
    · right; right
      exact ⟨r, by simp [doEvent, hw, notify, Driver.start_ride]⟩
    · by_cases hc : (w.riders r).status = RiderStatus.cancelled
      · left
        simp [doEvent, hw, hc, notify]
      · left
        simp [doEvent, hw, hc, notify]
  | dropoff t drv r =>
    left
    simp [doEvent, notify]

theorem doEvent_satisfied (e : Event) (w : World) (rid : String)
    (h : (w.riders rid).status = RiderStatus.satisfied) :
    ((doEvent e w).1.riders rid).status = RiderStatus.satisfied := by
  rcases doEvent_riders_cases e w with hcase | ⟨r, hne, hr⟩ | ⟨r, hr⟩
  · rw [hcase]
    exact h
  · rw [hr]
    by_cases hrr : rid = r
    · exact absurd (hrr ▸ h) hne
    · simp only [updRider, if_neg hrr]
      exact h
  · rw [hr]
    by_cases hrr : rid = r
    · subst hrr
      simp [updRider]
    · simp only [updRider, if_neg hrr]
      exact h

/-- Claim C3: SATISFIED is absorbing — any single event's `do` leaves a
SATISFIED rider SATISFIED; a Cancellation for a SATISFIED rider changes
nothing at all and schedules no follow-up events; and along any sequence
of executed events a SATISFIED rider stays SATISFIED forever. -/
theorem C3_satisfied_is_absorbing :
    (∀ (e : Event) (w : World) (rid : String),
        (w.riders rid).status = RiderStatus.satisfied →
        ((doEvent e w).1.riders rid).status = RiderStatus.satisfied)
    ∧ (∀ (t : Nat) (r : String) (w : World),
        (w.riders r).status = RiderStatus.satisfied →
        doEvent (Event.cancellation t r) w = (w, []))
    ∧ (∀ (es : List Event) (w : World) (rid : String),
        (w.riders rid).status = RiderStatus.satisfied →
        ((runEvents w es).riders rid).status = RiderStatus.satisfied) := by
  refine ⟨fun e w rid h => doEvent_satisfied e w rid h, ?_, ?_⟩
  · intro t r w h
    simp [doEvent, h]
  · intro es
    induction es with
    | nil =>
      intro w rid h
      simpa [runEvents] using h
    | cons e es ih =>
      intro w rid h
      have h1 := doEvent_satisfied e w rid h
      simp only [runEvents, List.foldl_cons]
      exact ih (doEvent e w).1 rid h1

/-- Claim C3's theorem applied at a concrete world whose rider `r` is
SATISFIED: a rider request, a cancellation, and a whole event sequence
all leave `r` SATISFIED, and the cancellation is a complete no-op. -/
theorem C3_satisfied_is_absorbing_witness :
    ((doEvent (Event.riderRequest 0 ("r")) wSatisfied).1.riders ("r")).status
        = RiderStatus.satisfied
    ∧ doEvent (Event.cancellation 7 ("r")) wSatisfied = (wSatisfied, [])
    ∧ ((runEvents wSatisfied
          [Event.cancellation 7 ("r"), Event.dropoff 9 ("d") ("r")]).riders
            ("r")).status = RiderStatus.satisfied :=
  ⟨C3_satisfied_is_absorbing.1 (Event.riderRequest 0 ("r")) wSatisfied ("r") rfl,
   C3_satisfied_is_absorbing.2.1 7 ("r") wSatisfied rfl,
   C3_satisfied_is_absorbing.2.2
     [Event.cancellation 7 ("r"), Event.dropoff 9 ("d") ("r")] wSatisfied
     ("r") rfl⟩

/-- Claim C5: a Pickup at time `t` for a WAITING rider whose driver is
about to arrive at the rider's origin (its stored destination is that
origin) emits exactly one Dropoff at
`t + round(distance(origin, destination) / speed)`; executing that
Dropoff leaves the driver at the rider's destination, idle, with no
destination, and emits exactly one DriverRequest at the Dropoff's own
timestamp. -/
theorem C5_pickup_dropoff_roundtrip (w : World) (t : Nat) (dvr rid : String)
    (hwait : (w.riders rid).status = RiderStatus.waiting)
    (hdest : (w.drivers dvr).destination = some (w.riders rid).origin)
    (hs : 0 < (w.drivers dvr).speed) :
    (doEvent (Event.pickup t dvr rid) w).2
      = [Event.dropoff (t + claimRideTime w dvr rid) dvr rid]
    ∧ ((doEvent (Event.dropoff (t + claimRideTime w dvr rid) dvr rid)
          (doEvent (Event.pickup t dvr rid) w).1).1.drivers dvr).location
        = (w.riders rid).destination
    ∧ ((doEvent (Event.dropoff (t + claimRideTime w dvr rid) dvr rid)
          (doEvent (Event.pickup t dvr rid) w).1).1.drivers dvr).is_idle
        = true
    ∧ ((doEvent (Event.dropoff (t + claimRideTime w dvr rid) dvr rid)
          (doEvent (Event.pickup t dvr rid) w).1).1.drivers dvr).destination
        = none
    ∧ (doEvent (Event.dropoff (t + claimRideTime w dvr rid) dvr rid)
          (doEvent (Event.pickup t dvr rid) w).1).2
        = [Event.driverRequest (t + claimRideTime w dvr rid) dvr] := by
  have h2 : (doEvent (Event.pickup t dvr rid) w).2
      = [Event.dropoff (t + claimRideTime w dvr rid) dvr rid] := by
    simp [doEvent, notify, updDriver, Driver.end_drive, hdest, hwait,
      Driver.start_ride, Driver.get_travel_time, claimRideTime]
  have hd2 : ((doEvent (Event.pickup t dvr rid) w).1.drivers dvr).destination
      = some (w.riders rid).destination := by
    simp [doEvent, notify, updDriver, Driver.end_drive, hdest, hwait,
      Driver.start_ride]
  have hdrop1 : ∀ (w' : World) (t' : Nat),
      (doEvent (Event.dropoff t' dvr rid) w').1.drivers dvr
        = (w'.drivers dvr).end_ride := by
    intro w' t'
    simp [doEvent, notify, updDriver]
  have hdrop2 : ∀ (w' : World) (t' : Nat),
      (doEvent (Event.dropoff t' dvr rid) w').2
        = [Event.driverRequest t' dvr] := by
    intro w' t'
    simp [doEvent, notify]
  refine ⟨h2, ?_, ?_, ?_, hdrop2 _ _⟩
  · rw [hdrop1]
    simp [Driver.end_ride, hd2]
  · rw [hdrop1]
    simp [Driver.end_ride, hd2]
  · rw [hdrop1]
    simp [Driver.end_ride, hd2]

/-- Claim C5's theorem applied at `wPickup` with pickup time 10: the ride
takes `round(5 / 2) = 2` ticks. -/
theorem C5_pickup_dropoff_roundtrip_witness :
    (doEvent (Event.pickup 10 ("d") ("r")) wPickup).2
      = [Event.dropoff (10 + claimRideTime wPickup ("d") ("r")) ("d") ("r")]
    ∧ ((doEvent
          (Event.dropoff (10 + claimRideTime wPickup ("d") ("r")) ("d") ("r"))
          (doEvent (Event.pickup 10 ("d") ("r")) wPickup).1).1.drivers
            ("d")).location
        = (wPickup.riders ("r")).destination
    ∧ ((doEvent
          (Event.dropoff (10 + claimRideTime wPickup ("d") ("r")) ("d") ("r"))
          (doEvent (Event.pickup 10 ("d") ("r")) wPickup).1).1.drivers
            ("d")).is_idle = true
    ∧ ((doEvent
          (Event.dropoff (10 + claimRideTime wPickup ("d") ("r")) ("d") ("r"))
          (doEvent (Event.pickup 10 ("d") ("r")) wPickup).1).1.drivers
            ("d")).destination = none
    ∧ (doEvent
          (Event.dropoff (10 + claimRideTime wPickup ("d") ("r")) ("d") ("r"))
          (doEvent (Event.pickup 10 ("d") ("r")) wPickup).1).2
        = [Event.driverRequest (10 + claimRideTime wPickup ("d") ("r")) ("d")] :=
  C5_pickup_dropoff_roundtrip wPickup 10 ("d") ("r") rfl rfl (by decide)

/-- Claim C10: a Pickup whose rider is already SATISFIED still ends the
driver's drive — the driver moves to its stored destination, loses it and
becomes idle, with id and speed untouched — while every rider object is
left unchanged and no follow-up event is returned. -/
theorem C10_pickup_satisfied (w : World) (t : Nat) (dvr rid : String)
    (p : Location)
    (hsat : (w.riders rid).status = RiderStatus.satisfied)
    (hdest : (w.drivers dvr).destination = some p) :
    (doEvent (Event.pickup t dvr rid) w).2 = []
    ∧ ((doEvent (Event.pickup t dvr rid) w).1.drivers dvr).location = p
    ∧ ((doEvent (Event.pickup t dvr rid) w).1.drivers dvr).destination = none
    ∧ ((doEvent (Event.pickup t dvr rid) w).1.drivers dvr).is_idle = true
    ∧ ((doEvent (Event.pickup t dvr rid) w).1.drivers dvr).id
        = (w.drivers dvr).id
    ∧ ((doEvent (Event.pickup t dvr rid) w).1.drivers dvr).speed
        = (w.drivers dvr).speed
    ∧ (doEvent (Event.pickup t dvr rid) w).1.riders = w.riders := by
  refine ⟨?_, ?_, ?_, ?_, ?_, ?_, ?_⟩ <;>
    simp [doEvent, notify, updDriver, Driver.end_drive, hdest, hsat]

/-- Claim C10's theorem applied at `wPickupSat`. -/
theorem C10_pickup_satisfied_witness :
    (doEvent (Event.pickup 10 ("d") ("r")) wPickupSat).2 = []
    ∧ ((doEvent (Event.pickup 10 ("d") ("r")) wPickupSat).1.drivers
        ("d")).location = (⟨0, 0⟩ : Location)
    ∧ ((doEvent (Event.pickup 10 ("d") ("r")) wPickupSat).1.drivers
        ("d")).destination = none
    ∧ ((doEvent (Event.pickup 10 ("d") ("r")) wPickupSat).1.drivers
        ("d")).is_idle = true
    ∧ ((doEvent (Event.pickup 10 ("d") ("r")) wPickupSat).1.drivers
        ("d")).id = (wPickupSat.drivers ("d")).id
    ∧ ((doEvent (Event.pickup 10 ("d") ("r")) wPickupSat).1.drivers
        ("d")).speed = (wPickupSat.drivers ("d")).speed
    ∧ (doEvent (Event.pickup 10 ("d") ("r")) wPickupSat).1.riders
        = wPickupSat.riders :=
  C10_pickup_satisfied wPickupSat 10 ("d") ("r") ⟨0, 0⟩ rfl rfl
